import Mathlib

/-!
Shallow embedding of `main.go` from the Go-REST-API-no-libraries repository.

The service keeps an in-memory map from string identifiers to open-source
project records, guarded by a mutex, and exposes it through HTTP handlers.
Each handler is embedded as a pure Lean function from the request data and
the current store to an HTTP response (and, for mutating handlers, the new
store).  Modelling choices, each noted at the definition it concerns:

* the Go map `map[string]OpenSourceProject` is an association list with
  distinct keys; insertion overwrites an existing key in place and otherwise
  appends, so `List.length` agrees with Go's `len`;
* `time.Time` values are abstracted as natural numbers (the handlers never
  inspect them);
* the outcomes of the two library calls `io.ReadAll` and `json.Unmarshal`
  are carried in the request record, since the handler only branches on
  success/failure and on the parsed value;
* `json.Marshal` on the project struct never fails, and is embedded as a
  concrete serializer following the struct's field tags.
-/

/-- The `OpenSourceProject` struct of `main.go`.  `time.Time` fields are
abstracted as `Nat`. -/
structure OpenSourceProject where
  ID : String
  Name : String
  OpenIssues : List String
  OpenPRs : List String
  CreatedAt : Nat
  UpdatedAt : Nat
deriving DecidableEq, Repr

/-- The `CreateOpenSourceProjectReq` struct of `main.go`: the shape a POST
body is unmarshalled into. -/
structure CreateOpenSourceProjectReq where
  Name : String
  OpenIssues : List String
  OpenPRs : List String
deriving DecidableEq, Repr

/-- The `db map[string]OpenSourceProject` field of `projectHandlers`,
embedded as an association list with distinct keys. -/
abbrev Store := List (String × OpenSourceProject)

/-- Go map indexing `h.db[id]`: the value stored under `k`, if any. -/
def mapGet (db : Store) (k : String) : Option OpenSourceProject :=
  match db with
  | [] => none
  | (k', v) :: rest => if k' = k then some v else mapGet rest k

/-- Go map assignment `h.db[k] = v`: overwrite the entry for `k` in place if
present, otherwise append a new entry. -/
def mapInsert (db : Store) (k : String) (v : OpenSourceProject) : Store :=
  match db with
  | [] => [(k, v)]
  | (k', v') :: rest => if k' = k then (k, v) :: rest else (k', v') :: mapInsert rest k v

/-- Go `len(h.db)`: with distinct keys this is the number of entries. -/
def mapLen (db : Store) : Nat := db.length

/-- An HTTP response as the handlers build it: the status written by
`WriteHeader` (200 when none is written), the `content-type` header added by
`w.Header().Add`, and the bytes written by `w.Write`. -/
structure HttpResponse where
  status : Nat
  contentType : Option String
  body : String
deriving DecidableEq, Repr

/-- The data of a POST request that `post` inspects: the outcome of
`io.ReadAll(r.Body)` (`some e` meaning the read failed with error text `e`),
the value of `r.Header.Get("content-type")`, and the outcome of
`json.Unmarshal` on the body bytes. -/
structure PostRequest where
  readErr : Option String
  contentType : String
  parseRes : Except String CreateOpenSourceProjectReq
deriving Repr

/-- JSON escaping of one character, as `encoding/json` does for quote and
backslash (other escapes are irrelevant to the strings this development
evaluates on). -/
def escapeChar (c : Char) : String :=
  if c = Char.ofNat 34 then "\\\"" else if c = Char.ofNat 92 then "\\\\" else String.singleton c

/-- A JSON string literal: quoted, characters escaped. -/
def jsonStr (s : String) : String :=
  "\"" ++ String.join (s.data.map escapeChar) ++ "\""

/-- A JSON array of string literals. -/
def jsonStrList (l : List String) : String :=
  "[" ++ String.intercalate "," (l.map jsonStr) ++ "]"

/-- Go `json.Marshal` on one `OpenSourceProject`, following the struct's
field tags.  The abstracted `Nat` timestamps are rendered as quoted decimal
strings, standing in for Go's RFC3339 rendering of `time.Time`. -/
def marshalProject (p : OpenSourceProject) : String :=
  "\x7b" ++ jsonStr "id" ++ ":" ++ jsonStr p.ID ++
  "," ++ jsonStr "name" ++ ":" ++ jsonStr p.Name ++
  "," ++ jsonStr "open_issues" ++ ":" ++ jsonStrList p.OpenIssues ++
  "," ++ jsonStr "open_prs" ++ ":" ++ jsonStrList p.OpenPRs ++
  "," ++ jsonStr "created_at" ++ ":" ++ jsonStr (Nat.repr p.CreatedAt) ++
  "," ++ jsonStr "updated_at" ++ ":" ++ jsonStr (Nat.repr p.UpdatedAt) ++ "\x7d"

/-- Go `json.Marshal` on a slice of projects: a JSON array. -/
def marshalProjects (l : List OpenSourceProject) : String :=
  "[" ++ String.intercalate "," (l.map marshalProject) ++ "]"

/-- The `post` handler (`main.go` lines 48-84).  Gates in source order:
body-read failure → 500 with the error text; content-type not exactly
`application/json` → 415 naming the received type; unmarshal failure → 400
with the error text; otherwise build the project with
`ID = fmt.Sprint(len(h.db)+1)` and both timestamps `time.Now()`, insert it
under its ID, and write nothing (default 200, empty body). -/
def post (db : Store) (r : PostRequest) (now : Nat) : HttpResponse × Store :=
  match r.readErr with
  | some e => (⟨500, none, e⟩, db)
  | none =>
    if r.contentType ≠ "application/json" then
      (⟨415, none, "need content-type application-json, but got " ++ r.contentType⟩, db)
    else
      match r.parseRes with
      | Except.error e => (⟨400, none, e⟩, db)
      | Except.ok body =>
        let p : OpenSourceProject :=
          { ID := Nat.repr (mapLen db + 1)
            Name := body.Name
            OpenIssues := body.OpenIssues
            OpenPRs := body.OpenPRs
            CreatedAt := now
            UpdatedAt := now }
        (⟨200, none, ""⟩, mapInsert db p.ID p)

/-- The `getAll` handler (`main.go` lines 86-107): serialize every stored
project as a JSON array (the embedding fixes the unspecified Go map
iteration order as entry order), respond 200 with content-type
`application/json`.  The `json.Marshal` error branch is dead, as the
embedded marshaller never fails. -/
def getAll (db : Store) : HttpResponse :=
  ⟨200, some "application/json", marshalProjects (db.map Prod.snd)⟩

/-- Go `strings.Split(s, sep)` at the character level, for the
single-character separator `"/"` the source uses: cut the character list at
every occurrence of `c`, yielding one piece more than there are
occurrences. -/
def splitChars (c : Char) : List Char → List (List Char)
  | [] => [[]]
  | x :: xs =>
    if x = c then [] :: splitChars c xs
    else
      match splitChars c xs with
      | [] => [[x]]
      | h :: t => (x :: h) :: t

/-- Go `strings.Split(r.URL.String(), "/")` as `getProject` calls it. -/
def splitSlash (s : String) : List String :=
  (splitChars (Char.ofNat 47) s.data).map List.asString

/-- The `getProject` handler (`main.go` lines 109-137): split the raw URL
string on `/`; any segment count other than 4 → 400 with empty body; look
up segment 3 in the store; missing → 404 with empty body; present →
serialize the single project, respond 200 with content-type
`application/json`. -/
def getProject (db : Store) (url : String) : HttpResponse :=
  let parts := splitSlash url
  if parts.length ≠ 4 then ⟨400, none, ""⟩
  else
    match mapGet db (parts.getD 3 "") with
    | none => ⟨404, none, ""⟩
    | some project => ⟨200, some "application/json", marshalProject project⟩

/-- The `projects` dispatcher (`main.go` lines 34-46): switch on the HTTP
method; GET → `getAll`, POST → `post`, anything else → 405 with body
`Method not allowed`.  Non-mutating branches return the store unchanged. -/
def projects (db : Store) (method : String) (r : PostRequest) (now : Nat) :
    HttpResponse × Store :=
  if method = "GET" then (getAll db, db)
  else if method = "POST" then post db r now
  else (⟨405, none, "Method not allowed"⟩, db)

/-- HTTP Basic credentials as `r.BasicAuth()` returns them; `none` embeds
`ok = false` (no or malformed Authorization header). -/
structure BasicCreds where
  user : String
  pass : String
deriving DecidableEq, Repr

/-- The admin `handler` (`main.go` lines 154-162): absent credentials, a
username other than `admin`, or a password other than the configured one all
take the same branch, 401 with empty body; otherwise write the fixed HTML
page (default status 200). -/
def adminHandler (password : String) (creds : Option BasicCreds) : HttpResponse :=
  match creds with
  | none => ⟨401, none, ""⟩
  | some c =>
    if c.user ≠ "admin" ∨ c.pass ≠ password then ⟨401, none, ""⟩
    else ⟨200, none, "<html><h1> Welcome to the admin dashboard </h1></html>"⟩

/-- The seed store built by `newProjectHandlers` (`main.go` lines 164-193):
ids `1`,`2`,`3`, each named `Project <id>` with issue and PR reference lists
`["1","2"]`; all timestamps are the startup instant `t`. -/
def newProjectHandlers (t : Nat) : Store :=
  [ ("1", { ID := "1", Name := "Project 1", OpenIssues := ["1", "2"],
            OpenPRs := ["1", "2"], CreatedAt := t, UpdatedAt := t }),
    ("2", { ID := "2", Name := "Project 2", OpenIssues := ["1", "2"],
            OpenPRs := ["1", "2"], CreatedAt := t, UpdatedAt := t }),
    ("3", { ID := "3", Name := "Project 3", OpenIssues := ["1", "2"],
            OpenPRs := ["1", "2"], CreatedAt := t, UpdatedAt := t }) ]

/-- Store states the running program can reach: the seed store, followed by
any sequence of `post` calls (the only operation that writes the store). -/
inductive Reachable : Store → Prop where
  | seed (t : Nat) : Reachable (newProjectHandlers t)
  | step (db : Store) (r : PostRequest) (now : Nat) :
      Reachable db → Reachable (post db r now).2

/-- The key layout every reachable store satisfies: the keys are exactly the
decimal strings `"1" … "n"` in order, where `n` is the store size. -/
def keysSequential (db : Store) : Prop :=
  db.map Prod.fst = (List.range db.length).map (fun i => Nat.repr (i + 1))

/-- Failure of admin authentication, exactly the condition of the 401 branch
of `handler`. -/
def adminAuthFails (password : String) (creds : Option BasicCreds) : Prop :=
  match creds with
  | none => True
  | some c => c.user ≠ "admin" ∨ c.pass ≠ password

example : splitSlash "/opensource/projects/4" = ["", "opensource", "projects", "4"] := by
  decide

example : splitSlash "/opensource/projects/1?x=2" = ["", "opensource", "projects", "1?x=2"] := by
  decide

example : mapGet (newProjectHandlers 0) "2" = some
    { ID := "2", Name := "Project 2", OpenIssues := ["1", "2"],
      OpenPRs := ["1", "2"], CreatedAt := 0, UpdatedAt := 0 } := by
  decide

example : (post (newProjectHandlers 0)
    ⟨none, "application/json", Except.ok ⟨"X", [], []⟩⟩ 5).2.length = 4 := by
  decide

example : getProject (newProjectHandlers 0) "/opensource/projects/9" = ⟨404, none, ""⟩ := by
  decide

/-! Injectivity of `Nat.repr`, via the verified `Nat.digits`. -/

theorem asString_injective (l1 l2 : List Char) (h : l1.asString = l2.asString) : l1 = l2 :=
  congrArg String.data h

theorem toDigitsCore_eq_digits (fuel : Nat) : ∀ (n : Nat) (ds : List Char), n ≠ 0 → n < fuel →
    Nat.toDigitsCore 10 fuel n ds = ((Nat.digits 10 n).map Nat.digitChar).reverse ++ ds := by
  induction fuel with
  | zero => intro n ds _ h2; omega
  | succ f ih =>
    intro n ds h1 h2
    rw [Nat.digits_def' (by norm_num : (1:ℕ) < 10) (Nat.pos_of_ne_zero h1)]
    by_cases hq : n / 10 = 0
    · simp [Nat.toDigitsCore, hq]
    · have hlt : n / 10 < f := by
        have : n / 10 < n := Nat.div_lt_self (Nat.pos_of_ne_zero h1) (by norm_num)
        omega
      simp only [Nat.toDigitsCore, hq, if_false]
      rw [ih (n / 10) _ hq hlt]
      simp

theorem toDigits_eq_digits (n : Nat) (h : n ≠ 0) :
    Nat.toDigits 10 n = ((Nat.digits 10 n).map Nat.digitChar).reverse := by
  rw [Nat.toDigits, toDigitsCore_eq_digits (n + 1) n [] h (Nat.lt_succ_self n)]
  simp

theorem digitChar_injOn : ∀ a, a < 10 → ∀ b, b < 10 → Nat.digitChar a = Nat.digitChar b → a = b := by
  decide

theorem map_digitChar_injOn : ∀ (l1 l2 : List Nat), (∀ x ∈ l1, x < 10) → (∀ x ∈ l2, x < 10) →
    l1.map Nat.digitChar = l2.map Nat.digitChar → l1 = l2 := by
  intro l1
  induction l1 with
  | nil => intro l2 _ _ h; cases l2 <;> simp_all
  | cons a t ih =>
    intro l2 h1 h2 h
    cases l2 with
    | nil => simp_all
    | cons b t2 =>
      simp only [List.map_cons, List.cons.injEq] at h
      have hab : a = b :=
        digitChar_injOn a (h1 a (by simp)) b (h2 b (by simp)) h.1
      have ht : t = t2 :=
        ih t2 (fun x hx => h1 x (by simp [hx])) (fun x hx => h2 x (by simp [hx])) h.2
      rw [hab, ht]

theorem repr_injective (m n : Nat) (h : Nat.repr m = Nat.repr n) : m = n := by
  have key : ∀ a b : Nat, a ≠ 0 → b ≠ 0 → Nat.repr a = Nat.repr b → a = b := by
    intro a b ha hb hab
    rw [Nat.repr, Nat.repr, toDigits_eq_digits a ha, toDigits_eq_digits b hb] at hab
    have hl := asString_injective _ _ hab
    have hmap := List.reverse_injective hl
    have hdig : Nat.digits 10 a = Nat.digits 10 b :=
      map_digitChar_injOn _ _
        (fun x hx => Nat.digits_lt_base (by norm_num) hx)
        (fun x hx => Nat.digits_lt_base (by norm_num) hx) hmap
    have := congrArg (Nat.ofDigits 10) hdig
    rwa [Nat.ofDigits_digits, Nat.ofDigits_digits] at this
  have zero_case : ∀ b : Nat, b ≠ 0 → Nat.repr 0 ≠ Nat.repr b := by
    intro b hb hcontra
    rw [Nat.repr, Nat.repr, toDigits_eq_digits b hb] at hcontra
    have hl := asString_injective _ _ hcontra
    have hl' : (Nat.digits 10 b).map Nat.digitChar = [Nat.digitChar 0] := by
      have := congrArg List.reverse hl
      simpa [Nat.toDigits, Nat.toDigitsCore] using this.symm
    have hlen : (Nat.digits 10 b).length = 1 := by
      have := congrArg List.length hl'
      simpa using this
    obtain ⟨d, hd⟩ := List.length_eq_one.mp hlen
    rw [hd] at hl'
    simp only [List.map_cons, List.map_nil, List.cons.injEq, and_true] at hl'
    have hd10 : d < 10 := Nat.digits_lt_base (by norm_num) (by rw [hd]; simp)
    have hd0 : d = 0 := digitChar_injOn d hd10 0 (by norm_num) hl'
    have := congrArg (Nat.ofDigits 10) hd
    rw [Nat.ofDigits_digits, hd0] at this
    simp [Nat.ofDigits] at this
    exact hb this
  by_cases hm : m = 0 <;> by_cases hn : n = 0
  · rw [hm, hn]
  · exact absurd (hm ▸ h) (zero_case n hn)
  · exact absurd (hn ▸ h.symm) (zero_case m hm)
  · exact key m n hm hn h

/-! Lemmas about the association-list embedding of the Go map. -/

theorem mapGet_mapInsert_self (db : Store) (k : String) (v : OpenSourceProject) :
    mapGet (mapInsert db k v) k = some v := by
  induction db with
  | nil => simp [mapInsert, mapGet]
  | cons e rest ih =>
    by_cases he : e.1 = k
    · simp [mapInsert, mapGet, he]
    · simpa [mapInsert, mapGet, he] using ih

theorem mapGet_eq_none_iff (db : Store) (k : String) :
    mapGet db k = none ↔ k ∉ db.map Prod.fst := by
  induction db with
  | nil => simp [mapGet]
  | cons e rest ih =>
    by_cases he : e.1 = k
    · simp [mapGet, he]
    · simp [mapGet, he, ih, Ne.symm he]

theorem keys_mapInsert_fresh (db : Store) (k : String) (v : OpenSourceProject)
    (h : k ∉ db.map Prod.fst) :
    (mapInsert db k v).map Prod.fst = db.map Prod.fst ++ [k] := by
  induction db with
  | nil => simp [mapInsert]
  | cons e rest ih =>
    simp only [List.map_cons, List.mem_cons, not_or] at h
    have he : ¬ e.1 = k := fun hc => h.1 hc.symm
    simp only [mapInsert, he, if_false, List.map_cons, List.cons_append, List.cons.injEq,
      true_and]
    exact ih h.2

theorem length_mapInsert_fresh (db : Store) (k : String) (v : OpenSourceProject)
    (h : k ∉ db.map Prod.fst) :
    (mapInsert db k v).length = db.length + 1 := by
  have := congrArg List.length (keys_mapInsert_fresh db k v h)
  simpa using this

theorem mem_mapInsert (db : Store) (k : String) (v : OpenSourceProject)
    (e : String × OpenSourceProject) (h : e ∈ mapInsert db k v) : e ∈ db ∨ e = (k, v) := by
  induction db with
  | nil => simpa [mapInsert] using h
  | cons e' rest ih =>
    by_cases he : e'.1 = k
    · simp only [mapInsert, he, if_true, List.mem_cons] at h
      rcases h with h | h
      · right; exact h
      · left; simp [h]
    · simp only [mapInsert, he, if_false, List.mem_cons] at h
      rcases h with h | h
      · left; simp [h]
      · rcases ih h with h' | h'
        · left; simp [h']
        · right; exact h'

theorem mapGet_mem (db : Store) (k : String) (p : OpenSourceProject)
    (h : mapGet db k = some p) : (k, p) ∈ db := by
  induction db with
  | nil => simp [mapGet] at h
  | cons e rest ih =>
    by_cases he : e.1 = k
    · simp only [mapGet, he, if_true, Option.some.injEq] at h
      have hke : (k, p) = e := by
        obtain ⟨k', v'⟩ := e
        simp_all
      rw [hke]
      exact List.mem_cons_self _ _
    · simp only [mapGet, he, if_false] at h
      exact List.mem_cons_of_mem _ (ih h)

/-! Characterisations of `post` and the store states the program can reach. -/

theorem post_success (db : Store) (b : CreateOpenSourceProjectReq) (now : Nat) :
    post db ⟨none, "application/json", Except.ok b⟩ now =
      (⟨200, none, ""⟩,
       mapInsert db (Nat.repr (mapLen db + 1))
         { ID := Nat.repr (mapLen db + 1), Name := b.Name, OpenIssues := b.OpenIssues,
           OpenPRs := b.OpenPRs, CreatedAt := now, UpdatedAt := now }) := rfl

theorem post_state_cases (db : Store) (r : PostRequest) (now : Nat) :
    (post db r now).2 = db ∨
      ∃ b, r = ⟨none, "application/json", Except.ok b⟩ := by
  obtain ⟨re, ct, pr⟩ := r
  cases re with
  | some e => left; rfl
  | none =>
    by_cases hct : ct = "application/json"
    · cases pr with
      | error e => left; simp [post, hct]
      | ok b => right; exact ⟨b, by rw [hct]⟩
    · left; simp [post, hct]

theorem repr_succ_fresh (n : Nat) :
    Nat.repr (n + 1) ∉ (List.range n).map (fun i => Nat.repr (i + 1)) := by
  intro hmem
  obtain ⟨i, hi, hrep⟩ := List.mem_map.mp hmem
  have hin := List.mem_range.mp hi
  have := repr_injective _ _ hrep
  omega

theorem reachable_keysSequential (db : Store) (h : Reachable db) : keysSequential db := by
  induction h with
  | seed t =>
    unfold keysSequential
    simp only [newProjectHandlers, List.map_cons, List.map_nil, List.length_cons,
      List.length_nil]
    decide
  | step db r now hdb ih =>
    rcases post_state_cases db r now with heq | ⟨b, rfl⟩
    · rw [heq]; exact ih
    · have ih' : db.map Prod.fst = (List.range db.length).map (fun i => Nat.repr (i + 1)) := ih
      have hfresh : Nat.repr (mapLen db + 1) ∉ db.map Prod.fst := by
        simp only [mapLen]
        rw [ih']
        exact repr_succ_fresh db.length
      rw [post_success]
      unfold keysSequential
      rw [keys_mapInsert_fresh db _ _ hfresh, length_mapInsert_fresh db _ _ hfresh, ih',
        List.range_succ, List.map_append]
      simp [mapLen]

theorem reachable_fresh_key (db : Store) (h : Reachable db) :
    Nat.repr (mapLen db + 1) ∉ db.map Prod.fst := by
  have hseq : db.map Prod.fst = (List.range db.length).map (fun i => Nat.repr (i + 1)) :=
    reachable_keysSequential db h
  simp only [mapLen]
  rw [hseq]
  exact repr_succ_fresh db.length

theorem reachable_entriesKeyed (db : Store) (h : Reachable db) :
    ∀ e ∈ db, e.2.ID = e.1 := by
  induction h with
  | seed t =>
    intro e he
    simp only [newProjectHandlers, List.mem_cons, List.not_mem_nil, or_false] at he
    rcases he with rfl | rfl | rfl <;> rfl
  | step db r now hdb ih =>
    rcases post_state_cases db r now with heq | ⟨b, rfl⟩
    · rw [heq]; exact ih
    · rw [post_success]
      intro e he
      rcases mem_mapInsert db _ _ e he with h' | rfl
      · exact ih e h'
      · rfl

/-! Lemmas about the character-level split used by `getProject`. -/

theorem splitChars_not_mem (c : Char) (l : List Char) (h : c ∉ l) : splitChars c l = [l] := by
  induction l with
  | nil => rfl
  | cons x xs ih =>
    simp only [List.mem_cons, not_or] at h
    have hx : ¬ x = c := fun hh => h.1 hh.symm
    simp [splitChars, hx, ih h.2]

theorem splitChars_url_start (rest : List Char) :
    splitChars (Char.ofNat 47) ("/opensource/projects/".data ++ rest) =
      [] :: "opensource".data :: "projects".data :: splitChars (Char.ofNat 47) rest := by
  rfl

theorem splitSlash_item_url (tail : String) (h : Char.ofNat 47 ∉ tail.data) :
    splitSlash ("/opensource/projects/" ++ tail) = ["", "opensource", "projects", tail] := by
  unfold splitSlash
  rw [String.data_append, splitChars_url_start, splitChars_not_mem _ _ h]
  rfl

theorem getProject_found (db : Store) (url id : String) (p : OpenSourceProject)
    (hu : splitSlash url = ["", "opensource", "projects", id])
    (hget : mapGet db id = some p) :
    getProject db url = ⟨200, some "application/json", marshalProject p⟩ := by
  unfold getProject
  rw [hu]
  simp [hget]

theorem getProject_missing (db : Store) (url id : String)
    (hu : splitSlash url = ["", "opensource", "projects", id])
    (hget : mapGet db id = none) :
    getProject db url = ⟨404, none, ""⟩ := by
  unfold getProject
  rw [hu]
  simp [hget]

/-! The claims. -/

/-- C1: for every create request against a reachable store whose content-type
header is exactly `application/json` and whose body unmarshals into the
create structure, the store size increases by exactly one, and a subsequent
fetch-by-id whose URL's id segment is the assigned identifier answers 200
with a project whose name, open-issue list and open-PR list equal the
submitted fields. -/
theorem post_create_then_fetch (db : Store) (r : PostRequest) (b : CreateOpenSourceProjectReq)
    (now : Nat) (url : String) (hdb : Reachable db) (hre : r.readErr = none)
    (hct : r.contentType = "application/json") (hpr : r.parseRes = Except.ok b)
    (hurl : splitSlash url = ["", "opensource", "projects", Nat.repr (mapLen db + 1)]) :
    mapLen (post db r now).2 = mapLen db + 1 ∧
    ∃ p : OpenSourceProject,
      getProject (post db r now).2 url = ⟨200, some "application/json", marshalProject p⟩ ∧
      p.Name = b.Name ∧ p.OpenIssues = b.OpenIssues ∧ p.OpenPRs = b.OpenPRs := by
  obtain ⟨re, ct, pr⟩ := r
  obtain rfl : re = none := hre
  obtain rfl : ct = "application/json" := hct
  obtain rfl : pr = Except.ok b := hpr
  have hfresh := reachable_fresh_key db hdb
  rw [post_success]
  constructor
  · simpa [mapLen] using length_mapInsert_fresh db _ _ hfresh
  · exact ⟨_, getProject_found _ _ _ _ hurl (mapGet_mapInsert_self db _ _), rfl, rfl, rfl⟩

theorem post_create_then_fetch_witness :
    mapLen (post (newProjectHandlers 0)
        ⟨none, "application/json", Except.ok ⟨"X", ["a"], ["b"]⟩⟩ 7).2
      = mapLen (newProjectHandlers 0) + 1 ∧
    ∃ p : OpenSourceProject,
      getProject (post (newProjectHandlers 0)
            ⟨none, "application/json", Except.ok ⟨"X", ["a"], ["b"]⟩⟩ 7).2
          "/opensource/projects/4"
        = ⟨200, some "application/json", marshalProject p⟩ ∧
      p.Name = "X" ∧ p.OpenIssues = ["a"] ∧ p.OpenPRs = ["b"] :=
  post_create_then_fetch (newProjectHandlers 0) _ _ 7 "/opensource/projects/4"
    (Reachable.seed 0) rfl rfl rfl (by decide)

/-- C2: `post` assigns the new project the identifier
`fmt.Sprint(len(db) + 1)`, the decimal string of the store size plus one;
concretely, one create of a project named `X` with empty lists against the
seed store assigns id `4`, and a fetch of `4` then returns a project with
id `4` and name `X`. -/
theorem post_assigns_size_plus_one_id (t now : Nat) :
    (∀ (db : Store) (b : CreateOpenSourceProjectReq) (m : Nat),
        (post db ⟨none, "application/json", Except.ok b⟩ m).2 =
          mapInsert db (Nat.repr (mapLen db + 1))
            { ID := Nat.repr (mapLen db + 1), Name := b.Name, OpenIssues := b.OpenIssues,
              OpenPRs := b.OpenPRs, CreatedAt := m, UpdatedAt := m }) ∧
    mapGet (post (newProjectHandlers t)
        ⟨none, "application/json", Except.ok ⟨"X", [], []⟩⟩ now).2 "4"
      = some { ID := "4", Name := "X", OpenIssues := [], OpenPRs := [],
               CreatedAt := now, UpdatedAt := now } ∧
    getProject (post (newProjectHandlers t)
          ⟨none, "application/json", Except.ok ⟨"X", [], []⟩⟩ now).2
        "/opensource/projects/4"
      = ⟨200, some "application/json",
          marshalProject { ID := "4", Name := "X", OpenIssues := [], OpenPRs := [],
                           CreatedAt := now, UpdatedAt := now }⟩ := by
  have hid : Nat.repr (mapLen (newProjectHandlers t) + 1) = "4" := by
    have hlen : mapLen (newProjectHandlers t) = 3 := rfl
    rw [hlen]
    decide
  have hpost := post_success (newProjectHandlers t) ⟨"X", [], []⟩ now
  rw [hid] at hpost
  refine ⟨fun db b m => congrArg Prod.snd (post_success db b m), ?_, ?_⟩
  · rw [hpost]
    exact mapGet_mapInsert_self _ _ _
  · rw [hpost]
    exact getProject_found _ _ _ _ (by decide) (mapGet_mapInsert_self _ _ _)

/-- C3: a create request whose content-type header is not exactly
`application/json` is answered 415 with a plain-text body naming the
received type, with the store unchanged; the parse outcome of the body is
never consulted (the result is the same for every `parseRes`). -/
theorem post_wrong_content_type (db : Store) (r : PostRequest) (now : Nat)
    (hre : r.readErr = none) (hct : r.contentType ≠ "application/json") :
    post db r now =
      (⟨415, none, "need content-type application-json, but got " ++ r.contentType⟩, db) := by
  obtain ⟨re, ct, pr⟩ := r
  obtain rfl : re = none := hre
  simp only [post, if_pos hct]

theorem post_wrong_content_type_witness :
    post (newProjectHandlers 0)
        ⟨none, "application/json; charset=utf-8", Except.error "boom"⟩ 0 =
      (⟨415, none,
        "need content-type application-json, but got application/json; charset=utf-8"⟩,
       newProjectHandlers 0) :=
  post_wrong_content_type (newProjectHandlers 0) _ 0 rfl (by decide)

/-- C4: a create request with the correct content-type whose body fails to
unmarshal is answered 400 with the parse error text as body, and the store
is left unmodified. -/
theorem post_unmarshal_error (db : Store) (now : Nat) (e : String) :
    post db ⟨none, "application/json", Except.error e⟩ now = (⟨400, none, e⟩, db) := rfl

/-- C5: complete case analysis of `getProject`: a URL that does not split
into exactly 4 slash-separated segments is answered 400 with empty body; a
4-segment URL whose last segment is not a stored key is answered 404 with
empty body; a 4-segment URL whose last segment is a stored key is answered
200 with content-type `application/json` and the JSON serialization of that
single project. -/
theorem getProject_case_analysis (db : Store) (url : String) :
    getProject db url =
      if (splitSlash url).length = 4 then
        match mapGet db ((splitSlash url).getD 3 "") with
        | none => ⟨404, none, ""⟩
        | some p => ⟨200, some "application/json", marshalProject p⟩
      else ⟨400, none, ""⟩ := by
  unfold getProject
  by_cases h : (splitSlash url).length = 4 <;> simp [h]

/-- C6: on the collection path, any HTTP method other than GET and POST is
answered 405 with body `Method not allowed` and the store unchanged, GET
dispatches to `getAll`, and POST dispatches to `post`. -/
theorem projects_method_dispatch (db : Store) (m : String) (r : PostRequest) (now : Nat)
    (h1 : m ≠ "GET") (h2 : m ≠ "POST") :
    projects db m r now = (⟨405, none, "Method not allowed"⟩, db) ∧
    projects db "GET" r now = (getAll db, db) ∧
    projects db "POST" r now = post db r now := by
  refine ⟨?_, rfl, rfl⟩
  simp [projects, h1, h2]

theorem projects_method_dispatch_witness :
    projects (newProjectHandlers 0) "DELETE" ⟨none, "", Except.error ""⟩ 0 =
      (⟨405, none, "Method not allowed"⟩, newProjectHandlers 0) ∧
    projects (newProjectHandlers 0) "GET" ⟨none, "", Except.error ""⟩ 0 =
      (getAll (newProjectHandlers 0), newProjectHandlers 0) ∧
    projects (newProjectHandlers 0) "POST" ⟨none, "", Except.error ""⟩ 0 =
      post (newProjectHandlers 0) ⟨none, "", Except.error ""⟩ 0 :=
  projects_method_dispatch (newProjectHandlers 0) "DELETE" _ 0 (by decide) (by decide)

/-- C7: an admin request with Basic credentials whose username is exactly
`admin` and whose password equals the configured one is answered 200, with a
body containing the text `Welcome to the admin dashboard`. -/
theorem admin_correct_credentials (pw : String) :
    adminHandler pw (some ⟨"admin", pw⟩) =
      ⟨200, none, "<html><h1> Welcome to the admin dashboard </h1></html>"⟩ ∧
    ∃ s1 s2, (adminHandler pw (some ⟨"admin", pw⟩)).body =
      s1 ++ "Welcome to the admin dashboard" ++ s2 := by
  have hbody : adminHandler pw (some ⟨"admin", pw⟩) =
      ⟨200, none, "<html><h1> Welcome to the admin dashboard </h1></html>"⟩ := by
    simp only [adminHandler]
    rw [if_neg]
    rintro (h | h) <;> exact h rfl
  refine ⟨hbody, "<html><h1> ", " </h1></html>", ?_⟩
  rw [hbody]
  decide

/-- C8: any two admin requests that fail authentication — credentials
absent, username not `admin`, or password not the configured one — receive
identical responses: the same 401 status and the same empty body. -/
theorem admin_unauthorized_uniform (pw : String) (c1 c2 : Option BasicCreds)
    (h1 : adminAuthFails pw c1) (h2 : adminAuthFails pw c2) :
    adminHandler pw c1 = adminHandler pw c2 ∧ adminHandler pw c1 = ⟨401, none, ""⟩ := by
  have key : ∀ c, adminAuthFails pw c → adminHandler pw c = ⟨401, none, ""⟩ := by
    intro c hc
    cases c with
    | none => rfl
    | some cr =>
      have hc' : cr.user ≠ "admin" ∨ cr.pass ≠ pw := hc
      simp only [adminHandler]
      rw [if_pos hc']
  exact ⟨(key c1 h1).trans (key c2 h2).symm, key c1 h1⟩

theorem admin_unauthorized_uniform_witness :
    adminHandler "s3cret" none = adminHandler "s3cret" (some ⟨"admin", "wrong"⟩) ∧
    adminHandler "s3cret" none = ⟨401, none, ""⟩ :=
  admin_unauthorized_uniform "s3cret" none (some ⟨"admin", "wrong"⟩) trivial
    (Or.inr (by decide))

/-- C9: `getProject` splits the raw URL string, query component included, so
a request for `/opensource/projects/{id}?{query}` looks up the key
`{id}?{query}` and is answered 404 even when a project with identifier
`{id}` is stored. -/
theorem getProject_query_in_lookup_key (db : Store) (id q : String) (p : OpenSourceProject)
    (hid : Char.ofNat 47 ∉ id.data) (hq : Char.ofNat 47 ∉ q.data) (_hq0 : q ≠ "")
    (_hstored : mapGet db id = some p) (hmiss : mapGet db (id ++ "?" ++ q) = none) :
    splitSlash ("/opensource/projects/" ++ (id ++ "?" ++ q)) =
      ["", "opensource", "projects", id ++ "?" ++ q] ∧
    getProject db ("/opensource/projects/" ++ (id ++ "?" ++ q)) = ⟨404, none, ""⟩ := by
  have htail : Char.ofNat 47 ∉ (id ++ "?" ++ q).data := by
    intro hmem
    rw [String.data_append, String.data_append] at hmem
    rcases List.mem_append.mp hmem with hmem' | hq'
    · rcases List.mem_append.mp hmem' with hone | htwo
      · exact hid hone
      · exact absurd htwo (by decide)
    · exact hq hq'
  have hsplit := splitSlash_item_url (id ++ "?" ++ q) htail
  exact ⟨hsplit, getProject_missing db _ _ hsplit hmiss⟩

theorem getProject_query_in_lookup_key_witness :
    splitSlash "/opensource/projects/1?x=2" = ["", "opensource", "projects", "1?x=2"] ∧
    getProject (newProjectHandlers 0) "/opensource/projects/1?x=2" = ⟨404, none, ""⟩ :=
  getProject_query_in_lookup_key (newProjectHandlers 0) "1" "x=2"
    { ID := "1", Name := "Project 1", OpenIssues := ["1", "2"], OpenPRs := ["1", "2"],
      CreatedAt := 0, UpdatedAt := 0 }
    (by decide) (by decide) (by decide) (by decide) (by decide)

/-- C10: in every store state reachable from the seed via create operations,
each entry's key equals the ID field of the project stored under it, so any
lookup that succeeds returns a project whose id field matches the key it was
found under. -/
theorem reachable_key_matches_id (db : Store) (h : Reachable db) :
    (∀ e ∈ db, e.2.ID = e.1) ∧
    ∀ (k : String) (p : OpenSourceProject), mapGet db k = some p → p.ID = k := by
  have entries := reachable_entriesKeyed db h
  exact ⟨entries, fun k p hget => entries (k, p) (mapGet_mem db k p hget)⟩

theorem reachable_key_matches_id_witness :
    (∀ e ∈ newProjectHandlers 0, e.2.ID = e.1) ∧
    ∀ (k : String) (p : OpenSourceProject),
      mapGet (newProjectHandlers 0) k = some p → p.ID = k :=
  reachable_key_matches_id (newProjectHandlers 0) (Reachable.seed 0)
